import Mathlib

/-!
Verification development for the HalIndexer search-engine core
(`src/index/indexer.py`, `src/index/entry.py`, `src/data/web.py`).

The Python code is shallowly embedded: Python `dict`s become insertion-ordered
association lists, file contents become lists of byte values (`Nat`s below
256), floats become rationals, and the recursive PageRank computation is
modelled with an explicit fuel parameter so that non-termination is visible as
fuel exhaustion at every fuel value.
-/

/-- Insertion-ordered association list lookup: returns the value of the first
pair whose key matches, like reading a Python `dict`. -/
def alLookup {α β : Type} [DecidableEq α] : List (α × β) → α → Option β
  | [], _ => none
  | (k, v) :: rest, key => if key = k then some v else alLookup rest key

/-- Python `d[k] = v`: replace the value of an existing key in place, or append
the new pair at the end (dicts preserve insertion order). -/
def alSet {α β : Type} [DecidableEq α] : List (α × β) → α → β → List (α × β)
  | [], key, v => [(key, v)]
  | (k, w) :: rest, key, v =>
    if key = k then (k, v) :: rest else (k, w) :: alSet rest key v

/-- Python `d.get(k, dflt)`. -/
def alGetD {α β : Type} [DecidableEq α] (l : List (α × β)) (k : α) (dflt : β) : β :=
  (alLookup l k).getD dflt

/-- Python `k in d`. -/
def alContains {α β : Type} [DecidableEq α] (l : List (α × β)) (k : α) : Bool :=
  (alLookup l k).isSome

/-- A Python dictionary key that is either an `int` or a `str`.  JSON
round-tripping (`json.dump` / `json.load` in `src/index/entry.py`) turns the
former into the latter, which several claims hinge on. -/
inductive PyKey : Type
  | nat (n : Nat)
  | str (s : String)
  deriving DecidableEq, Repr

/-- `json.dump` of a dict key: an `int` key is serialized as its decimal
string, a `str` key stays itself (`dump_dictionary`, entry.py lines 7-15). -/
def pyKeyToJson : PyKey → String
  | .nat n => toString n
  | .str s => s

/-- `json.dump` of a dict with `PyKey` keys and `Nat` values. -/
def dumpPyNatMap (l : List (PyKey × Nat)) : List (String × Nat) :=
  l.map (fun p => (pyKeyToJson p.1, p.2))

/-- `json.load` of such a dump: every key comes back as a `str`
(`load_dictionary`, entry.py lines 18-27). -/
def loadPyNatMap (l : List (String × Nat)) : List (PyKey × Nat) :=
  l.map (fun p => (PyKey.str p.1, p.2))

/-! ### Word normalization (`stripe_enclosing_punctuation`, `get_word_id`) -/

/-- Membership in Python's `string.punctuation`, written via ASCII codes:
`!"#$%&'()*+,-./`, `:;<=>?@`, `[\]^_` with backquote, and the four chars
after `z`. -/
def isPunct (c : Char) : Bool :=
  let n := c.toNat
  (33 ≤ n && n ≤ 47) || (58 ≤ n && n ≤ 64) || (91 ≤ n && n ≤ 96) || (123 ≤ n && n ≤ 126)

/-- Whitespace recognized by Python's `str.rstrip()`.  The ASCII range plus the
Latin-1 cases; the remaining Unicode space code points do not occur in the
tokens this development evaluates. -/
def isPySpace (c : Char) : Bool :=
  let n := c.toNat
  n = 32 || (9 ≤ n && n ≤ 13) || (28 ≤ n && n ≤ 31) || n = 133 || n = 160

/-- Python `str.rstrip()` on a character list. -/
def rstripL (l : List Char) : List Char :=
  (l.reverse.dropWhile isPySpace).reverse

/-- ASCII case folding, the fragment of Python `str.lower()` the claims use. -/
def asciiLowerChar (c : Char) : Char :=
  if 65 ≤ c.toNat && c.toNat ≤ 90 then Char.ofNat (c.toNat + 32) else c

/-- `stripe_enclosing_punctuation` (indexer.py lines 73-87): compute a lower
bound that skips the first character when it is punctuation, an upper bound
that drops the last character when it is punctuation, and slice.  Note that at
most ONE character is removed from each side. -/
def stripeEnclosingPunct (target : List Char) : List Char :=
  if target = [] then target
  else
    let lb := if isPunct (target.headD default) then 1 else 0
    let ub := target.length - (if isPunct (target.getLastD default) then 1 else 0)
    (target.take ub).drop lb

/-- The token normal form computed inside `WordDictionary.get_word_id`
(indexer.py lines 147-148): rstrip, strip enclosing punctuation, lowercase. -/
def normalizeWord (w : String) : String :=
  String.mk ((stripeEnclosingPunct (rstripL w.data)).map asciiLowerChar)

/-- ASCII letter or digit. -/
def isAsciiAlnum (c : Char) : Bool :=
  let n := c.toNat
  (48 ≤ n && n ≤ 57) || (65 ≤ n && n ≤ 90) || (97 ≤ n && n ≤ 122)

/-- The normalization step (2) as the SPEC words it (spec §4.2): strip the
leading and trailing RUNS of non-alphanumeric characters, leaving a fully
non-alphanumeric token unchanged.  Kept separate from the code's
`stripeEnclosingPunct` so the two can be compared. -/
def specStripNonAlnum (t : List Char) : List Char :=
  if t.all (fun c => !isAsciiAlnum c) then t
  else ((t.dropWhile (fun c => !isAsciiAlnum c)).reverse.dropWhile
    (fun c => !isAsciiAlnum c)).reverse

/-- The whole normalization pipeline as the spec words it. -/
def specNormalizeWord (w : String) : String :=
  String.mk ((specStripNonAlnum (rstripL w.data)).map asciiLowerChar)

/-- A sequential reformulation of the code's step (2): drop the first
character when it is punctuation, then drop the last character of the result
when it is punctuation.  Used to state the amended claim C4. -/
def stripeSeq (t : List Char) : List Char :=
  let s1 := match t with
    | [] => []
    | c :: rest => if isPunct c then rest else c :: rest
  match s1.getLast? with
  | none => s1
  | some c => if isPunct c then s1.dropLast else s1

/-- The amended normal form: rstrip, sequential single-character punctuation
stripping, lowercase. -/
def amendedNormalizeWord (w : String) : String :=
  String.mk ((stripeSeq (rstripL w.data)).map asciiLowerChar)

/-! ### WordDictionary (indexer.py lines 90-157) -/

/-- In-memory `WordDictionary` state: the `word -> id` entries in insertion
order, and the running `current_id` counter. -/
structure WordDict : Type where
  entries : List (String × Nat)
  current_id : Nat
  deriving DecidableEq, Repr

/-- `WordDictionary.get_word_id` (indexer.py lines 139-154): normalize, return
the stored id when present, otherwise register the normalized word under
`current_id` and bump the counter. -/
def getWordId (d : WordDict) (w : String) : Nat × WordDict :=
  let word := normalizeWord w
  match alLookup d.entries word with
  | some wid => (wid, d)
  | none =>
    (d.current_id, ⟨d.entries ++ [(word, d.current_id)], d.current_id + 1⟩)

/-! ### Claim C4: the normalization pipeline -/

/-- Claim C4 counterexample.  The claim says the normal form strips the
leading and trailing runs of non-alphanumeric characters (leaving fully
non-alphanumeric tokens unchanged); the code strips at most one punctuation
character per side.  On the token `"..a"` the code keeps one leading dot
(and `get_word_id` registers `".a"`), while the spec's pipeline yields `"a"`. -/
theorem c4_normalization_counterexample :
    normalizeWord "..a" = ".a" ∧ specNormalizeWord "..a" = "a" ∧
      normalizeWord "..a" ≠ specNormalizeWord "..a" ∧
      (getWordId ⟨[], 1⟩ "..a").2.entries = [(".a", 1)] := by
  refine ⟨by decide, by decide, by decide, by decide⟩

/-- Claim C4 (amended): the normal form computed by `get_word_id` equals the
result of (1) stripping trailing whitespace, then (2) removing the first
character when it is ASCII punctuation and afterwards the last remaining
character when it is ASCII punctuation — at most one character per side, with
no exemption for fully non-alphanumeric tokens — then (3) lowercasing. -/
theorem c4_normalization_amended (w : String) :
    normalizeWord w = amendedNormalizeWord w := by
  have hstripe : ∀ t : List Char, stripeEnclosingPunct t = stripeSeq t := by
    intro t
    cases t with
    | nil => rfl
    | cons c L =>
      rcases L.eq_nil_or_concat with rfl | ⟨M, e, rfl⟩
      · by_cases h : isPunct c = true
        · simp [stripeEnclosingPunct, stripeSeq, h]
        · simp [stripeEnclosingPunct, stripeSeq, h]
      · simp only [List.concat_eq_append]
        have hlastq : (c :: (M ++ [e])).getLast? = some e := by
          show ((c :: M) ++ [e]).getLast? = some e
          exact List.getLast?_concat _
        have hlastd : (c :: (M ++ [e])).getLastD default = e := by
          rw [List.getLastD_eq_getLast?, hlastq]; rfl
        have hlen : (c :: (M ++ [e])).length = M.length + 2 := by simp
        have hne : (c :: (M ++ [e])) ≠ [] := by simp
        have htake1 : (c :: (M ++ [e])).take (M.length + 1) = c :: M := by
          show ((c :: M) ++ [e]).take (M.length + 1) = c :: M
          have h1 : M.length + 1 = (c :: M).length := by simp
          rw [h1, List.take_left]
        have htake0 : (c :: (M ++ [e])).take (M.length + 2) = c :: (M ++ [e]) := by
          have h0 : M.length + 2 = (c :: (M ++ [e])).length := by simp
          rw [h0, List.take_length]
        have hdl2 : (M ++ [e]).dropLast = M := List.dropLast_concat
        have hdl1 : (c :: (M ++ [e])).dropLast = c :: M := by
          show ((c :: M) ++ [e]).dropLast = c :: M
          exact List.dropLast_concat
        have hlq2 : (M ++ [e]).getLast? = some e := List.getLast?_concat _
        have harith : M.length + 2 - 1 = M.length + 1 := rfl
        by_cases hc : isPunct c = true <;> by_cases he : isPunct e = true <;>
          simp [stripeEnclosingPunct, stripeSeq, hne, hlastq, hlastd, hlen, hc, he,
            harith, htake1, htake0, hdl1, hdl2, hlq2]
  unfold normalizeWord amendedNormalizeWord
  rw [hstripe]

/-! ### Claim C7: `get_word_id` on the empty string -/

/-- Claim C7 counterexample.  The claim says `get_word_id("")` leaves the
dictionary unchanged; in the code the empty normal form is registered like any
other unknown word, so on a freshly loaded dictionary the entry set and the
counter both change. -/
theorem c7_empty_token_counterexample :
    (getWordId ⟨[], 1⟩ "").2 ≠ (⟨[], 1⟩ : WordDict) ∧
      (getWordId ⟨[], 1⟩ "").2 = (⟨[("", 1)], 2⟩ : WordDict) := by
  exact ⟨by decide, by decide⟩

/-- Claim C7 (amended): `get_word_id("")` computes the empty normal form, and
when `""` is not yet registered it allocates a fresh id for it exactly like
any other token: the entry `("", current_id)` is appended and the counter is
bumped. -/
theorem c7_empty_token_amended (d : WordDict)
    (h : alLookup d.entries "" = none) :
    normalizeWord "" = "" ∧
      getWordId d "" = (d.current_id, ⟨d.entries ++ [("", d.current_id)], d.current_id + 1⟩) := by
  constructor
  · decide
  · have hnorm : normalizeWord "" = "" := by decide
    simp only [getWordId, hnorm, h]

/-- Witness for `c7_empty_token_amended` at a concrete dictionary. -/
theorem c7_empty_token_amended_witness :
    normalizeWord "" = "" ∧
      getWordId ⟨[("go", 1)], 2⟩ "" = (2, ⟨[("go", 1), ("", 2)], 3⟩) :=
  c7_empty_token_amended ⟨[("go", 1)], 2⟩ (by decide)

/-! ### Binary codec (entry.py): big-endian packing of hits and entries -/

/-- One byte of a big-endian `!B` pack. -/
def be1 (n : Nat) : List Nat := [n % 256]

/-- Two bytes of a big-endian `!H` pack. -/
def be2 (n : Nat) : List Nat := [n / 256 % 256, n % 256]

/-- Four bytes of a big-endian `!I` pack. -/
def be4 (n : Nat) : List Nat :=
  [n / 16777216 % 256, n / 65536 % 256, n / 256 % 256, n % 256]

/-- Big-endian byte list to natural number (the unpack direction). -/
def beToNat (bs : List Nat) : Nat :=
  bs.foldl (fun acc b => acc * 256 + b) 0

/-- Read `n` bytes from the front of a byte stream, failing like
`struct.unpack` when fewer are available. -/
def readBE (n : Nat) (bs : List Nat) : Option (Nat × List Nat) :=
  if bs.length < n then none else some (beToNat (bs.take n), bs.drop n)

/-- A `Hit` (entry.py lines 30-97): kind, section index, position index. -/
structure Hit : Type where
  kind : Nat
  sect : Nat
  position : Nat
  deriving DecidableEq, Repr

/-- `Hit.pack`: `!BII`, 9 bytes. -/
def packHit (h : Hit) : List Nat := be1 h.kind ++ be4 h.sect ++ be4 h.position

/-- A `ForwardIndexEntry` (entry.py lines 100-182): page id and an
insertion-ordered mapping from word id to hit list. -/
structure ForwardEntry : Type where
  page_id : Nat
  hits : List (Nat × List Hit)
  deriving DecidableEq, Repr

/-- `ForwardIndexEntry.pack`: `!II` page id and word count, then per word
`!IH` word id and hit count followed by the packed hits. -/
def packForwardEntry (e : ForwardEntry) : List Nat :=
  be4 e.page_id ++ be4 e.hits.length ++
    e.hits.foldl (fun acc p => acc ++ be4 p.1 ++ be2 p.2.length ++ p.2.foldl
      (fun hb h => hb ++ packHit h) []) []

/-- `Hit.unpack`: read 9 bytes as `!BII`. -/
def parseHit (bs : List Nat) : Option (Hit × List Nat) :=
  match readBE 1 bs with
  | none => none
  | some (kind, bs1) =>
    match readBE 4 bs1 with
    | none => none
    | some (sect, bs2) =>
      match readBE 4 bs2 with
      | none => none
      | some (position, bs3) => some (⟨kind, sect, position⟩, bs3)

/-- The hit-list loop of `ForwardIndexEntry.unpack`. -/
def parseHits : Nat → List Nat → Option (List Hit × List Nat)
  | 0, bs => some ([], bs)
  | n + 1, bs =>
    match parseHit bs with
    | none => none
    | some (h, bs1) =>
      match parseHits n bs1 with
      | none => none
      | some (hl, bs2) => some (h :: hl, bs2)

/-- The word loop of `ForwardIndexEntry.unpack`: for each word read `!IH` and
then the hits; `hits[word_id] = hit_list` is a Python dict assignment. -/
def parseWords : Nat → List Nat → List (Nat × List Hit) → Option (List (Nat × List Hit))
  | 0, _, acc => some acc
  | n + 1, bs, acc =>
    match readBE 4 bs with
    | none => none
    | some (wid, bs1) =>
      match readBE 2 bs1 with
      | none => none
      | some (hitCount, bs2) =>
        match parseHits hitCount bs2 with
        | none => none
        | some (hl, bs3) => parseWords n bs3 (alSet acc wid hl)

/-- `ForwardIndexEntry.unpack` (entry.py lines 108-131). -/
def unpackForwardEntry (bs : List Nat) : Option ForwardEntry :=
  match readBE 4 bs with
  | none => none
  | some (pid, bs1) =>
    match readBE 4 bs1 with
    | none => none
    | some (wordCount, bs2) =>
      match parseWords wordCount bs2 [] with
      | none => none
      | some hits => some ⟨pid, hits⟩

/-! ### ForwardIndex (indexer.py lines 160-334) -/

/-- `ForwardIndex` state: the append-only binary file, the running size used
as the next write offset, and the in-memory `page_id -> offset` map whose keys
are Python ints in a live session but strings after a JSON reload. -/
structure FwdIndex : Type where
  file : List Nat
  index_size : Nat
  position_mapping : List (PyKey × Nat)
  deriving DecidableEq, Repr

/-- `merge_list_dictionaries` inner loop: extend `result[key]` by each list,
creating missing keys (indexer.py lines 56-70). -/
def mergeInto (acc d : List (Nat × List Hit)) : List (Nat × List Hit) :=
  d.foldl (fun a p => alSet a p.1 (alGetD a p.1 [] ++ p.2)) acc

/-- `merge_list_dictionaries` over a list of dictionaries. -/
def mergeListDicts (ds : List (List (Nat × List Hit))) : List (Nat × List Hit) :=
  ds.foldl mergeInto []

/-- Python `section.split(" ")` on characters: split at every single space,
preserving empty tokens. -/
def splitSpaceGo : List Char → List Char → List (List Char)
  | [], cur => [cur.reverse]
  | c :: rest, cur =>
    if c = ' ' then cur.reverse :: splitSpaceGo rest [] else splitSpaceGo rest (c :: cur)

/-- Python `s.split(" ")`. -/
def splitSpace (s : String) : List String :=
  (splitSpaceGo s.data []).map String.mk

/-- The token loop of `ForwardIndex._scan_section` (indexer.py lines 318-334):
split on a single space, get each token's word id (mutating the dictionary),
and append a `Hit(kind, section_num, count)`. -/
def scanWords (kind sectionNum : Nat) :
    List String → Nat → WordDict → List (Nat × List Hit) → WordDict × List (Nat × List Hit)
  | [], _, wd, acc => (wd, acc)
  | w :: rest, count, wd, acc =>
    let r := getWordId wd w
    scanWords kind sectionNum rest (count + 1) r.2
      (alSet acc r.1 (alGetD acc r.1 [] ++ [⟨kind, sectionNum, count⟩]))

/-- `ForwardIndex._scan_section` on one section string. -/
def scanSection (wd : WordDict) (sectionNum : Nat) (s : String) (kind : Nat) :
    WordDict × List (Nat × List Hit) :=
  scanWords kind sectionNum (splitSpace s) 0 wd []

/-- The section loop of `ForwardIndex._scan_hits` (indexer.py lines 304-316). -/
def scanHitsGo (kind : Nat) :
    List String → Nat → WordDict → List (Nat × List Hit) → WordDict × List (Nat × List Hit)
  | [], _, wd, master => (wd, master)
  | s :: rest, count, wd, master =>
    let r := scanSection wd count s kind
    scanHitsGo kind rest (count + 1) r.1 (mergeListDicts [master, r.2])

/-- `ForwardIndex._scan_hits`. -/
def scanHits (wd : WordDict) (sections : List String) (kind : Nat) :
    WordDict × List (Nat × List Hit) :=
  scanHitsGo kind sections 0 wd []

/-- `ForwardIndex._write_forward_entry` (indexer.py lines 229-242): append the
length-framed entry, record the old end-of-file offset for the page id, and
grow the size. -/
def writeForwardEntry (fi : FwdIndex) (e : ForwardEntry) : FwdIndex :=
  let body := packForwardEntry e
  let data := be4 body.length ++ body
  { file := fi.file ++ data
    index_size := fi.index_size + data.length
    position_mapping := alSet fi.position_mapping (.nat e.page_id) fi.index_size }

/-- `Anchor` (data/web.py lines 33-43). -/
structure Anchor : Type where
  text : String
  url : String
  deriving DecidableEq, Repr

/-- `PageDocument` (data/web.py lines 1-30). -/
structure PageDocument : Type where
  doc_id : Nat
  title : String
  checksum : String
  url : String
  html : String
  anchors : List Anchor
  texts : List String
  headers : List String
  deriving DecidableEq, Repr

/-- `ForwardIndex.index` (indexer.py lines 189-205): scan title, headers,
texts, anchor texts and url in that order (hit kinds 3, 4, 1, 2, 5), merge
into the master dictionary, and write the entry. -/
def fwdIndex (wd : WordDict) (fi : FwdIndex) (data : PageDocument) :
    ForwardEntry × WordDict × FwdIndex :=
  let t := scanHits wd [data.title] 3
  let h := scanHits t.1 data.headers 4
  let x := scanHits h.1 data.texts 1
  let a := scanHits x.1 (data.anchors.map (fun an => an.text)) 2
  let u := scanHits a.1 [data.url] 5
  let master := mergeListDicts [t.2, h.2, x.2, a.2, u.2]
  let entry : ForwardEntry := ⟨data.doc_id, master⟩
  (entry, u.1, writeForwardEntry fi entry)

/-- `ForwardIndex._read_forward_entry` at a byte offset: read the `!I` length
prefix, then that many bytes, then unpack. -/
def readForwardEntryAt (file : List Nat) (pos : Nat) : Option ForwardEntry :=
  let bs := file.drop pos
  match readBE 4 bs with
  | none => none
  | some (size, bs1) => unpackForwardEntry (bs1.take size)

/-- `ForwardIndex.get_entry` (indexer.py lines 207-218): `None` when the page
id is not a key of the offset map, otherwise seek and read. -/
def getEntry (fi : FwdIndex) (pageId : Nat) : Option ForwardEntry :=
  match alLookup fi.position_mapping (.nat pageId) with
  | none => none
  | some pos => readForwardEntryAt fi.file pos

/-- `ForwardIndex.close` (indexer.py lines 220-227): `dump_dictionary` of the
offset map; JSON serialization turns the int page-id keys into strings. -/
def fwdCloseMapFile (fi : FwdIndex) : List (String × Nat) :=
  dumpPyNatMap fi.position_mapping

/-- Re-constructing a `ForwardIndex` over an existing file (indexer.py lines
166-179): the size is the file size and the offset map starts empty. -/
def fwdReopen (file : List Nat) : FwdIndex := ⟨file, file.length, []⟩

/-- `ForwardIndex.load` (indexer.py lines 181-187): `load_dictionary` of the
JSON sidecar, whose keys are all strings. -/
def fwdLoad (fi : FwdIndex) (mapFile : List (String × Nat)) : FwdIndex :=
  { fi with position_mapping := loadPyNatMap mapFile }

/-- The concrete single-document scenario used for claim C1: a fresh
dictionary and forward index, and a document with only a title and a url. -/
def c1Doc : PageDocument := ⟨1, "hi", "", "u", "", [], [], []⟩

/-- Indexing `c1Doc` on the fresh state. -/
def c1Run : ForwardEntry × WordDict × FwdIndex := fwdIndex ⟨[], 1⟩ ⟨[], 0, []⟩ c1Doc

set_option maxRecDepth 8000 in
/-- Claim C1, settled as a code bug.  Before `close()`, `get_entry(1)` returns
the entry that `index` produced; after `close()` and a reopen-plus-`load()`,
the JSON round trip has turned the offset map key `1` into the string `"1"`,
so `get_entry(1)` misses the map and returns `None` instead of the original
entry. -/
theorem c1_persistence_roundtrip_bug :
    getEntry c1Run.2.2 1 = some c1Run.1 ∧
      getEntry (fwdLoad (fwdReopen c1Run.2.2.file) (fwdCloseMapFile c1Run.2.2)) 1 = none := by
  exact ⟨by decide, by decide⟩

/-! ### ReverseIndex (indexer.py lines 337-503) -/

/-- `SortedList.add`: insert a page id into a sorted list, keeping order.
Duplicates are kept — a `SortedList` is not a set. -/
def insertSorted (p : Nat) : List Nat → List Nat
  | [] => [p]
  | x :: xs => if p < x then p :: x :: xs else x :: insertSorted p xs

/-- `ReverseIndex._insert_to_lexicon` (indexer.py lines 436-446): create the
sorted container on first use, then add the page id. -/
def insertToLexicon (lex : List (Nat × List Nat)) (wid pid : Nat) : List (Nat × List Nat) :=
  alSet lex wid (insertSorted pid (alGetD lex wid []))

/-- A `ReverseIndexEntry` (entry.py lines 185-251). -/
structure RevEntry : Type where
  word_id : Nat
  page_id : Nat
  hits : List Hit
  deriving DecidableEq, Repr

/-- `ReverseIndexEntry.pack`: `!IH` page id and hit count plus hits, framed by
a `!I` length prefix. -/
def packRevEntry (e : RevEntry) : List Nat :=
  let body := be4 e.page_id ++ be2 e.hits.length ++
    e.hits.foldl (fun acc h => acc ++ packHit h) []
  be4 body.length ++ body

/-- `ReverseIndex._convert_to_reverse_indexes` (indexer.py lines 409-423). -/
def convertToReverse (fe : ForwardEntry) : List (Nat × List RevEntry) :=
  fe.hits.foldl
    (fun res p => alSet res p.1 (alGetD res p.1 [] ++ [⟨p.1, fe.page_id, p.2⟩])) []

/-- `ReverseIndex` state: the in-memory lexicon (word id to sorted page-id
container) and the per-word segment files on disk. -/
structure RevIndex : Type where
  lexicon : List (Nat × List Nat)
  segments : List (Nat × List Nat)
  deriving DecidableEq, Repr

/-- `ReverseIndex.index` (indexer.py lines 363-378): append the packed reverse
entries to each word's segment file and add every page id to the lexicon. -/
def rIndex (ri : RevIndex) (fe : ForwardEntry) : RevIndex :=
  let rentries := convertToReverse fe
  { segments := rentries.foldl
      (fun sg p => alSet sg p.1
        (alGetD sg p.1 [] ++ p.2.foldl (fun b e => b ++ packRevEntry e) [])) ri.segments
    lexicon := rentries.foldl
      (fun lx p => p.2.foldl (fun l e => insertToLexicon l p.1 e.page_id) lx) ri.lexicon }

/-- `ReverseIndex.get_page_ids` (indexer.py lines 392-399). -/
def getPageIds (ri : RevIndex) (wid : Nat) : List Nat :=
  alGetD ri.lexicon wid []

/-- `LexiconEntry.pack` (entry.py lines 286-298): `!II` word id and page
count, the page ids, all framed by a `!I` length prefix. -/
def packLexiconEntry (wid : Nat) (pages : List Nat) : List Nat :=
  let body := be4 wid ++ be4 pages.length ++ pages.foldl (fun b p => b ++ be4 p) []
  be4 body.length ++ body

/-- `ReverseIndex._write_lexicon` payload (indexer.py lines 469-479): one
packed `LexiconEntry` per lexicon word, in insertion order.  The file is
opened in append mode, so `close` concatenates this after the old content. -/
def lexiconDump (lex : List (Nat × List Nat)) : List Nat :=
  lex.foldl (fun b p => b ++ packLexiconEntry p.1 p.2) []

/-- The page loop of `LexiconEntry.unpack`. -/
def parsePages : Nat → List Nat → Option (List Nat × List Nat)
  | 0, bs => some ([], bs)
  | n + 1, bs =>
    match readBE 4 bs with
    | none => none
    | some (p, bs1) =>
      match parsePages n bs1 with
      | none => none
      | some (ps, bs2) => some (p :: ps, bs2)

/-- The `while start < end` loop of `ReverseIndex._load_lexicon` (indexer.py
lines 448-467), with fuel bounded by the file length: read the length prefix,
unpack one `LexiconEntry`, advance.  A malformed frame makes `struct.unpack`
raise in Python; here it yields `none`. -/
def parseLexEntries : Nat → List Nat → Option (List (Nat × List Nat))
  | _, [] => some []
  | 0, _ :: _ => none
  | fuel + 1, bs =>
    match readBE 4 bs with
    | none => none
    | some (entryLen, bs1) =>
      match readBE 4 bs1 with
      | none => none
      | some (wid, bs2) =>
        match readBE 4 bs2 with
        | none => none
        | some (count, bs3) =>
          if entryLen = 8 + 4 * count then
            match parsePages count bs3 with
            | none => none
            | some (ps, bs4) =>
              match parseLexEntries fuel bs4 with
              | none => none
              | some es => some ((wid, ps) :: es)
          else none

/-- A fresh `ReverseIndex.load` over a lexicon file: parse the stream and run
`_insert_to_lexicon` for every page of every entry, starting from the empty
lexicon.  A malformed file raises in Python and is modelled as empty; the
files written by `close` always parse. -/
def loadLexicon (file : List Nat) : List (Nat × List Nat) :=
  match parseLexEntries file.length file with
  | none => []
  | some entries =>
    entries.foldl (fun lx p => p.2.foldl (fun l pg => insertToLexicon l p.1 pg) lx) []

/-- An operation on the reverse-index component: index a forward entry, or
close it (appending the lexicon dump to the file) and construct-and-load a
fresh instance over the same directory. -/
inductive RevOp : Type
  | doIndex (fe : ForwardEntry)
  | closeReopen

/-- Reverse index plus its on-disk lexicon file. -/
structure RevSys : Type where
  ri : RevIndex
  lexFile : List Nat

/-- One step of the reverse-index lifecycle. -/
def stepRev (sys : RevSys) : RevOp → RevSys
  | .doIndex fe => ⟨rIndex sys.ri fe, sys.lexFile⟩
  | .closeReopen =>
    let file := sys.lexFile ++ lexiconDump sys.ri.lexicon
    ⟨⟨loadLexicon file, sys.ri.segments⟩, file⟩

/-- All states reachable from a fresh reverse index by indexing and
close/reopen cycles. -/
def applyRevOps (ops : List RevOp) : RevSys :=
  ops.foldl stepRev ⟨⟨[], []⟩, []⟩

/-- Membership in an updated association list comes from the new pair or from
the old list. -/
theorem mem_alSet {α β : Type} [DecidableEq α] (l : List (α × β)) (k : α) (v : β)
    (x : α × β) (hx : x ∈ alSet l k v) : x = (k, v) ∨ x ∈ l := by
  induction l with
  | nil =>
    simp [alSet] at hx
    exact Or.inl hx
  | cons hd tl ih =>
    unfold alSet at hx
    by_cases h : k = hd.1
    · rw [if_pos h] at hx
      rcases List.mem_cons.mp hx with h1 | h1
      · exact Or.inl (by rw [h1, h])
      · exact Or.inr (List.mem_cons_of_mem _ h1)
    · rw [if_neg h] at hx
      rcases List.mem_cons.mp hx with h1 | h1
      · exact Or.inr (by rw [h1]; exact List.mem_cons_self _ _)
      · rcases ih h1 with h2 | h2
        · exact Or.inl h2
        · exact Or.inr (List.mem_cons_of_mem _ h2)

/-- A successful association-list lookup exhibits a member. -/
theorem alLookup_mem {α β : Type} [DecidableEq α] (l : List (α × β)) (k : α) (v : β)
    (h : alLookup l k = some v) : (k, v) ∈ l := by
  induction l with
  | nil => simp [alLookup] at h
  | cons hd tl ih =>
    unfold alLookup at h
    by_cases hk : k = hd.1
    · rw [if_pos hk] at h
      injection h with h
      have hkv : (k, v) = hd := by rw [hk, ← h]
      rw [hkv]
      exact List.mem_cons_self _ _
    · rw [if_neg hk] at h
      exact List.mem_cons_of_mem _ (ih h)

/-- Every element of `insertSorted p l` is `p` or an element of `l`. -/
theorem mem_insertSorted (p a : Nat) (l : List Nat) (h : a ∈ insertSorted p l) :
    a = p ∨ a ∈ l := by
  induction l with
  | nil =>
    simp [insertSorted] at h
    exact Or.inl h
  | cons x xs ih =>
    unfold insertSorted at h
    by_cases hp : p < x
    · rw [if_pos hp] at h
      rcases List.mem_cons.mp h with h1 | h1
      · exact Or.inl h1
      · exact Or.inr h1
    · rw [if_neg hp] at h
      rcases List.mem_cons.mp h with h1 | h1
      · exact Or.inr (by rw [h1]; exact List.mem_cons_self _ _)
      · rcases ih h1 with h2 | h2
        · exact Or.inl h2
        · exact Or.inr (List.mem_cons_of_mem _ h2)

/-- `SortedList.add` preserves sortedness. -/
theorem insertSorted_sorted (p : Nat) (l : List Nat) (h : l.Sorted (· ≤ ·)) :
    (insertSorted p l).Sorted (· ≤ ·) := by
  induction l with
  | nil => simp [insertSorted]
  | cons x xs ih =>
    rw [List.sorted_cons] at h
    unfold insertSorted
    by_cases hp : p < x
    · rw [if_pos hp]
      rw [List.sorted_cons]
      constructor
      · intro b hb
        rcases List.mem_cons.mp hb with h1 | h1
        · rw [h1]; exact Nat.le_of_lt hp
        · exact Nat.le_trans (Nat.le_of_lt hp) (h.1 b h1)
      · rw [List.sorted_cons]
        exact h
    · rw [if_neg hp]
      rw [List.sorted_cons]
      constructor
      · intro b hb
        rcases mem_insertSorted p b xs hb with h1 | h1
        · rw [h1]; exact Nat.le_of_not_lt hp
        · exact h.1 b h1
      · exact ih h.2

/-- The lexicon invariant: every stored page-id container is sorted. -/
def LexSorted (lex : List (Nat × List Nat)) : Prop :=
  ∀ pr ∈ lex, pr.2.Sorted (· ≤ ·)

/-- `_insert_to_lexicon` preserves the sortedness invariant. -/
theorem insertToLexicon_sorted (lex : List (Nat × List Nat)) (wid pid : Nat)
    (h : LexSorted lex) : LexSorted (insertToLexicon lex wid pid) := by
  intro pr hpr
  rcases mem_alSet _ _ _ _ hpr with h1 | h1
  · rw [h1]
    refine insertSorted_sorted _ _ ?_
    unfold alGetD
    cases hl : alLookup lex wid with
    | none => simp
    | some v =>
      simp only [Option.getD_some]
      exact h _ (alLookup_mem _ _ _ hl)
  · exact h pr h1

/-- A fold of `_insert_to_lexicon` over any page list preserves sortedness. -/
theorem foldl_insert_pages_sorted (w : Nat) (ps : List Nat) :
    ∀ lx, LexSorted lx → LexSorted (ps.foldl (fun l pg => insertToLexicon l w pg) lx) := by
  induction ps with
  | nil => intro lx h; exact h
  | cons p rest ih =>
    intro lx h
    exact ih _ (insertToLexicon_sorted _ _ _ h)

/-- The `_load_lexicon` insertion fold preserves sortedness. -/
theorem foldl_insert_entries_sorted (es : List (Nat × List Nat)) :
    ∀ lx, LexSorted lx →
      LexSorted (es.foldl (fun lx p => p.2.foldl (fun l pg => insertToLexicon l p.1 pg) lx) lx) := by
  induction es with
  | nil => intro lx h; exact h
  | cons e rest ih =>
    intro lx h
    exact ih _ (foldl_insert_pages_sorted _ _ _ h)

/-- The `_add_to_lexicon` fold of `ReverseIndex.index` preserves sortedness. -/
theorem foldl_insert_reventries_sorted (rs : List (Nat × List RevEntry)) :
    ∀ lx, LexSorted lx →
      LexSorted (rs.foldl (fun lx p => p.2.foldl (fun l e => insertToLexicon l p.1 e.page_id) lx) lx) := by
  induction rs with
  | nil => intro lx h; exact h
  | cons r rest ih =>
    intro lx h
    refine ih _ ?_
    have hinner : ∀ (es : List RevEntry) (lx : List (Nat × List Nat)), LexSorted lx →
        LexSorted (es.foldl (fun l e => insertToLexicon l r.1 e.page_id) lx) := by
      intro es
      induction es with
      | nil => intro lx h; exact h
      | cons e rest2 ih2 =>
        intro lx h
        exact ih2 _ (insertToLexicon_sorted _ _ _ h)
    exact hinner _ _ h

/-- Every reachable reverse-index state has a sorted lexicon. -/
theorem applyRevOps_sorted (ops : List RevOp) : LexSorted (applyRevOps ops).ri.lexicon := by
  suffices hgen : ∀ (sys : RevSys), LexSorted sys.ri.lexicon →
      LexSorted (ops.foldl stepRev sys).ri.lexicon by
    refine hgen _ ?_
    intro pr hpr
    simp at hpr
  induction ops with
  | nil => intro sys h; exact h
  | cons op rest ih =>
    intro sys h
    refine ih _ ?_
    cases op with
    | doIndex fe =>
      exact foldl_insert_reventries_sorted _ _ h
    | closeReopen =>
      show LexSorted (loadLexicon _)
      unfold loadLexicon
      cases parseLexEntries _ _ with
      | none =>
        intro pr hpr
        simp at hpr
      | some entries =>
        refine foldl_insert_entries_sorted _ _ ?_
        intro pr hpr
        simp at hpr

/-- Claim C3 counterexample.  Indexing the same forward entry twice for the
same word is a reachable reverse-index operation sequence, and it leaves the
page id twice in the lexicon: `get_page_ids` returns `[1, 1]`, which has a
duplicate — `SortedList` is a sorted list, not a set. -/
theorem c3_duplicates_counterexample :
    getPageIds (rIndex (rIndex ⟨[], []⟩ ⟨1, [(7, [⟨1, 0, 0⟩])]⟩) ⟨1, [(7, [⟨1, 0, 0⟩])]⟩) 7
        = [1, 1] ∧
      ¬ (getPageIds (rIndex (rIndex ⟨[], []⟩ ⟨1, [(7, [⟨1, 0, 0⟩])]⟩) ⟨1, [(7, [⟨1, 0, 0⟩])]⟩) 7).Nodup := by
  exact ⟨by decide, by decide⟩

/-- Claim C3 (amended): at every reverse-index state reachable by indexing
forward entries and by close()/load() cycles, `get_page_ids(w)` is sorted in
ascending order for every word id; duplicates, however, CAN occur (the
counterexample indexes the same page twice for the same word), because the
container is a sorted list rather than a sorted set. -/
theorem c3_page_ids_sorted_amended (ops : List RevOp) (w : Nat) :
    (getPageIds (applyRevOps ops).ri w).Sorted (· ≤ ·) := by
  have hinv := applyRevOps_sorted ops
  unfold getPageIds alGetD
  cases hl : alLookup (applyRevOps ops).ri.lexicon w with
  | none => simp
  | some v =>
    simp only [Option.getD_some]
    exact hinv _ (alLookup_mem _ _ _ hl)

/-! ### Indexer facade (indexer.py lines 506-627) -/

/-- `Indexer` in-memory state (indexer.py lines 512-534): the three
components, the link graph (outbound counts, inverse references), the two URL
mappers, and the damping factor (a float, modelled as a rational). -/
structure Indexer : Type where
  word_dictionary : WordDict
  forward : FwdIndex
  reverse : RevIndex
  link_out_counts : List (PyKey × Nat)
  references_tracker : List (String × List Nat)
  url_page_id_mapper : List (String × Nat)
  page_id_url_mapper : List (PyKey × String)
  dampener : ℚ
  deriving DecidableEq, Repr

/-- The reverse-reference loop of `Indexer.index` (indexer.py lines 564-568):
append the page id to `references_tracker[anchor.url]` for each anchor.
Python iterates `set(data.anchors)`; `Anchor` defines no `__eq__`/`__hash__`,
so the set deduplicates by object identity only, and over a document whose
anchors are freshly constructed objects it contains every anchor. -/
def addReferrers (m : List (String × List Nat)) (pid : Nat) :
    List Anchor → List (String × List Nat)
  | [] => m
  | a :: rest => addReferrers (alSet m a.url (alGetD m a.url [] ++ [pid])) pid rest

/-- `Indexer.index` (indexer.py lines 550-568): a no-op when the URL is
already mapped; otherwise forward-index, reverse-index, record both URL
mappings, the raw anchor count, and the reverse references. -/
def indexerIndex (s : Indexer) (data : PageDocument) : Indexer :=
  if alContains s.url_page_id_mapper data.url then s
  else
    let r := fwdIndex s.word_dictionary s.forward data
    { s with
      word_dictionary := r.2.1
      forward := r.2.2
      reverse := rIndex s.reverse r.1
      url_page_id_mapper := alSet s.url_page_id_mapper data.url r.1.page_id
      page_id_url_mapper := alSet s.page_id_url_mapper (.nat r.1.page_id) data.url
      link_out_counts := alSet s.link_out_counts (.nat r.1.page_id) data.anchors.length
      references_tracker := addReferrers s.references_tracker r.1.page_id data.anchors }

/-- The fresh indexer over an empty directory, with the default damping
factor 0.8. -/
def emptyIndexer : Indexer :=
  ⟨⟨[], 1⟩, ⟨[], 0, []⟩, ⟨[], []⟩, [], [], [], [], 4 / 5⟩

/-- Looking up the key just set always succeeds with the new value. -/
theorem alLookup_alSet_self {α β : Type} [DecidableEq α] (l : List (α × β)) (k : α) (v : β) :
    alLookup (alSet l k v) k = some v := by
  induction l with
  | nil => simp [alSet, alLookup]
  | cons hd tl ih =>
    unfold alSet
    by_cases h : k = hd.1
    · rw [if_pos h]
      unfold alLookup
      rw [if_pos h]
    · rw [if_neg h]
      unfold alLookup
      rw [if_neg h]
      exact ih

/-- Setting one key leaves lookups of other keys unchanged. -/
theorem alLookup_alSet_ne {α β : Type} [DecidableEq α] (l : List (α × β)) (k k' : α) (v : β)
    (h : k' ≠ k) : alLookup (alSet l k v) k' = alLookup l k' := by
  induction l with
  | nil => simp [alSet, alLookup, h]
  | cons hd tl ih =>
    unfold alSet
    by_cases hk : k = hd.1
    · rw [if_pos hk]
      unfold alLookup
      rw [if_neg (hk ▸ h), if_neg (hk ▸ h)]
    · rw [if_neg hk]
      unfold alLookup
      by_cases hk' : k' = hd.1
      · rw [if_pos hk', if_pos hk']
      · rw [if_neg hk', if_neg hk']
        exact ih

/-- A page id is appended to `references_tracker[u]` once per anchor whose
target is `u`. -/
theorem addReferrers_getD (pid : Nat) (u : String) (anchors : List Anchor) :
    ∀ m, alGetD (addReferrers m pid anchors) u [] =
      alGetD m u [] ++ List.replicate (anchors.countP (fun a => a.url == u)) pid := by
  induction anchors with
  | nil =>
    intro m
    simp [addReferrers]
  | cons a rest ih =>
    intro m
    unfold addReferrers
    rw [ih]
    by_cases ha : a.url = u
    · have hgd : alGetD (alSet m a.url (alGetD m a.url [] ++ [pid])) u [] =
          alGetD m u [] ++ [pid] := by
        unfold alGetD
        rw [ha] at *
        rw [alLookup_alSet_self]
        rfl
      rw [hgd, List.countP_cons]
      simp [ha]
      rw [List.replicate_succ]
    · have hgd : alGetD (alSet m a.url (alGetD m a.url [] ++ [pid])) u [] =
          alGetD m u [] := by
        unfold alGetD
        rw [alLookup_alSet_ne _ _ _ _ (fun he => ha he.symm)]
      rw [hgd, List.countP_cons]
      simp [ha]

/-- The page id of the produced forward entry is the document id. -/
theorem fwdIndex_page_id (wd : WordDict) (fi : FwdIndex) (d : PageDocument) :
    (fwdIndex wd fi d).1.page_id = d.doc_id := rfl

/-- Claim C5 counterexample.  Two anchors pointing at the same target URL
`"u"` (distinct `Anchor` objects, as produced by the crawler interface) each
append the page id: `referrers["u"]` ends as `[1, 1]`, not the single append
the claim states. -/
theorem c5_unique_anchor_counterexample :
    alGetD (indexerIndex emptyIndexer
        ⟨1, "", "", "du", "", [⟨"x", "u"⟩, ⟨"y", "u"⟩], [], []⟩).references_tracker "u" []
      = [1, 1] ∧
    ¬ (alGetD (indexerIndex emptyIndexer
        ⟨1, "", "", "du", "", [⟨"x", "u"⟩, ⟨"y", "u"⟩], [], []⟩).references_tracker "u" []
      = [1]) := by
  exact ⟨by decide, by decide⟩

/-- Claim C5 (amended): during `index(doc)` of a not-yet-mapped URL, the page
id of `doc` is appended to `referrers[u]` once per anchor of the document
whose target URL is `u` — the `set()` in the code deduplicates anchors only by
object identity, so anchors sharing a target URL are not merged. -/
theorem c5_referrers_amended (s : Indexer) (doc : PageDocument) (u : String)
    (h : alContains s.url_page_id_mapper doc.url = false) :
    alGetD (indexerIndex s doc).references_tracker u [] =
      alGetD s.references_tracker u [] ++
        List.replicate (doc.anchors.countP (fun a => a.url == u)) doc.doc_id := by
  unfold indexerIndex
  rw [h]
  simp only [Bool.false_eq_true, if_false]
  rw [fwdIndex_page_id]
  exact addReferrers_getD _ _ _ _

/-- Witness for `c5_referrers_amended` on the two-anchor document. -/
theorem c5_referrers_amended_witness :
    alGetD (indexerIndex emptyIndexer
        ⟨1, "", "", "dw", "", [⟨"x", "u"⟩, ⟨"y", "u"⟩], [], []⟩).references_tracker "u" [] =
      alGetD emptyIndexer.references_tracker "u" [] ++
        List.replicate (List.countP (fun a => a.url == "u")
          [(⟨"x", "u"⟩ : Anchor), ⟨"y", "u"⟩]) 1 :=
  c5_referrers_amended emptyIndexer ⟨1, "", "", "dw", "", [⟨"x", "u"⟩, ⟨"y", "u"⟩], [], []⟩ "u"
    (by decide)

/-- Claim C8: indexing the same document twice is the same as indexing it
once.  The second call hits the `data.url in self._url_page_id_mapper` guard
and returns without touching any component state. -/
theorem c8_index_idempotent (s : Indexer) (doc : PageDocument) :
    indexerIndex (indexerIndex s doc) doc = indexerIndex s doc := by
  by_cases h : alContains s.url_page_id_mapper doc.url = true
  · simp [indexerIndex, h]
  · have h' : alContains s.url_page_id_mapper doc.url = false := by
      cases hb : alContains s.url_page_id_mapper doc.url with
      | true => exact absurd hb h
      | false => rfl
    have hmem : alContains (indexerIndex s doc).url_page_id_mapper doc.url = true := by
      unfold indexerIndex
      rw [h']
      simp only [Bool.false_eq_true, if_false]
      unfold alContains
      rw [alLookup_alSet_self]
      rfl
    conv_lhs => rw [indexerIndex, if_pos hmem]

/-! ### Persistence of the facade: `Indexer.close` and `Indexer.load` -/

/-- The sidecar files of the persistent state layout (spec §6).  The forward
binary file lives inside `FwdIndex.file` and the reverse segment files inside
`RevIndex.segments`; everything else is here. -/
structure FS : Type where
  word_dict : Option (List (String × Nat))
  forward_map : Option (List (String × Nat))
  lexicon_file : List Nat
  link_out : Option (List (String × Nat))
  reference_count : Option (List (String × List Nat))
  url_mapper : Option (List (String × Nat))
  page_id_mapper : Option (List (String × String))
  deriving DecidableEq, Repr

/-- The empty index directory: no sidecar exists yet. -/
def emptyFS : FS := ⟨none, none, [], none, none, none, none⟩

/-- `Indexer.close` (indexer.py lines 585-596): close the word dictionary
(rewrite its file), the forward index (dump the offset map), the reverse index
(append the lexicon dump), then `dump_dictionary` of `link_out_counts`,
`references_tracker` and `url_page_id_mapper`.  `page_id_url_mapper` is NOT
dumped anywhere, so its sidecar keeps whatever was there before. -/
def indexerClose (s : Indexer) (fs : FS) : FS :=
  { word_dict := some s.word_dictionary.entries
    forward_map := some (dumpPyNatMap s.forward.position_mapping)
    lexicon_file := fs.lexicon_file ++ lexiconDump s.reverse.lexicon
    link_out := some (dumpPyNatMap s.link_out_counts)
    reference_count := some s.references_tracker
    url_mapper := some s.url_page_id_mapper
    page_id_mapper := fs.page_id_mapper }

/-- `WordDictionary.load` (indexer.py lines 105-124): read the entries,
track the maximal id, and set `current_id` to one past it. -/
def loadWordDict (file : Option (List (String × Nat))) : WordDict :=
  let lines := file.getD []
  ⟨lines.foldl (fun es p => alSet es p.1 p.2) [],
    lines.foldl (fun m p => if m < p.2 then p.2 else m) 0 + 1⟩

/-- `Indexer.load` after re-constructing the components (indexer.py lines
536-548): every JSON sidecar is read back with string keys; a missing file
yields the empty mapping. -/
def indexerLoad (fwdFile : List Nat) (segs : List (Nat × List Nat)) (fs : FS) (d : ℚ) :
    Indexer :=
  { word_dictionary := loadWordDict fs.word_dict
    forward := fwdLoad (fwdReopen fwdFile) (fs.forward_map.getD [])
    reverse := ⟨loadLexicon fs.lexicon_file, segs⟩
    link_out_counts := loadPyNatMap (fs.link_out.getD [])
    references_tracker := fs.reference_count.getD []
    url_page_id_mapper := fs.url_mapper.getD []
    page_id_url_mapper := (fs.page_id_mapper.getD []).map (fun p => (PyKey.str p.1, p.2))
    dampener := d }

/-- The single-document state used for claim C6. -/
def c6State : Indexer := indexerIndex emptyIndexer ⟨1, "", "", "u", "", [⟨"t", "v"⟩], [], []⟩

set_option maxRecDepth 8000 in
/-- Claim C6, settled as a code bug.  After indexing one page, `close()`
writes `link_out`, `reference_count` and `url_mapper` with the in-memory
mappings, but never writes `page_id_mapper`, even though the in-memory
`page_id -> url` mapping is non-empty and `load()` reads that very file; a
reopened indexer therefore comes back with an empty `page_id -> url` map. -/
theorem c6_close_persistence_bug :
    (indexerClose c6State emptyFS).page_id_mapper = none ∧
      c6State.page_id_url_mapper = [(.nat 1, "u")] ∧
      (indexerClose c6State emptyFS).url_mapper = some [("u", 1)] ∧
      (indexerClose c6State emptyFS).link_out = some [("1", 1)] ∧
      (indexerClose c6State emptyFS).reference_count = some [("v", [1])] ∧
      (indexerLoad c6State.forward.file c6State.reverse.segments
        (indexerClose c6State emptyFS) (4 / 5)).page_id_url_mapper = [] := by
  refine ⟨by decide, by decide, by decide, by decide, by decide, by decide⟩

/-! ### PageRank (indexer.py lines 598-627) -/

/-- The fields of the indexer that `_page_rank_recursive` reads. -/
structure RankCtx : Type where
  dampener : ℚ
  page_id_url_mapper : List (PyKey × String)
  references_tracker : List (String × List Nat)
  link_out_counts : List (PyKey × Nat)
  deriving DecidableEq, Repr

/-- Projection of an `Indexer` onto the PageRank context. -/
def Indexer.rankCtx (s : Indexer) : RankCtx :=
  ⟨s.dampener, s.page_id_url_mapper, s.references_tracker, s.link_out_counts⟩

/-- Outcome of a fuel-bounded PageRank evaluation: a value together with the
updated memo `tracker`, a Python exception (`KeyError` on a missing
`link_out_counts` entry or `ZeroDivisionError`), or fuel exhaustion — the
fuel bounds the recursion depth, so divergence shows up as `noFuel` at every
fuel. -/
inductive PRRes : Type
  | ok (v : ℚ) (tr : List (Nat × ℚ))
  | err
  | noFuel
  deriving DecidableEq, Repr

/-- The `for page in self._references_tracker.get(url, [])` loop of
`_page_rank_recursive` (indexer.py lines 622-624): recursively rank each
referrer at one less fuel, threading the shared `tracker`, and accumulate
`rank / link_out_counts[page]`. -/
def prLoop (f : Nat → List (Nat × ℚ) → PRRes) (lo : List (PyKey × Nat)) :
    List Nat → List (Nat × ℚ) → ℚ → PRRes
  | [], tr, acc => .ok acc tr
  | p :: rest, tr, acc =>
    match f p tr with
    | .ok v tr' =>
      match alLookup lo (.nat p) with
      | none => .err
      | some c => if c = 0 then .err else prLoop f lo rest tr' (acc + v / (c : ℚ))
    | r => r

/-- `Indexer._page_rank_recursive` (indexer.py lines 607-627), fuel-indexed.
A memo hit returns the stored value; an unmapped page id returns `1 - d`
without touching the memo; otherwise the referrers of the page's URL are
ranked recursively and ONLY THEN is `tracker[page_id]` assigned — the memo
write happens after the recursion, exactly as in the code. -/
def prRecAux (ctx : RankCtx) : Nat → Nat → List (Nat × ℚ) → PRRes
  | 0 => fun _ _ => .noFuel
  | fuel + 1 => fun pid tr =>
    match alLookup tr pid with
    | some v => .ok v tr
    | none =>
      match alLookup ctx.page_id_url_mapper (.nat pid) with
      | none => .ok (1 - ctx.dampener) tr
      | some url =>
        match prLoop (prRecAux ctx fuel) ctx.link_out_counts
            (alGetD ctx.references_tracker url []) tr 0 with
        | .ok lp tr' => .ok (1 - ctx.dampener + lp) (alSet tr' pid (1 - ctx.dampener + lp))
        | r => r

/-- `Indexer._page_rank` (indexer.py lines 598-605): start the recursion with
an empty tracker. -/
def pageRank (s : Indexer) (fuel pid : Nat) : PRRes :=
  prRecAux s.rankCtx fuel pid []

/-- The indexer state after ingesting a page whose only anchor points at its
own URL — a one-page cycle in the reference graph, reachable through
`Indexer.index`. -/
def c2State : Indexer :=
  indexerIndex emptyIndexer ⟨1, "", "", "u", "", [⟨"t", "u"⟩], [], []⟩

set_option maxRecDepth 8000 in
/-- Claim C2, settled as a code bug.  On the self-referencing page the memo
never short-circuits: `tracker[page_id]` is only assigned AFTER the recursive
loop, so `_page_rank_recursive(1, {})` calls itself with the identical
arguments and no fuel bound suffices — the recursion never produces a value
(in Python it dies with `RecursionError`), contradicting both the claim and
the function's own docstring that the tracker makes the recursion stop. -/
theorem c2_pagerank_cycle_divergence : ∀ fuel : Nat, pageRank c2State fuel 1 = .noFuel := by
  have hctx : c2State.rankCtx = ⟨4 / 5, [(.nat 1, "u")], [("u", [1])], [(.nat 1, 1)]⟩ := by
    rfl
  intro fuel
  unfold pageRank
  rw [hctx]
  induction fuel with
  | zero => rfl
  | succ f ih =>
    simp [prRecAux, prLoop, alLookup, alGetD, ih]

/-! ### Keyword search (indexer.py lines 570-583) -/

/-- The `{page_id: self._page_rank(page_id) for page_id in pages}` dict
comprehension: each page is ranked with a fresh tracker; any non-value makes
the whole query fail to produce a result. -/
def buildRanked (ctx : RankCtx) (fuel : Nat) :
    List Nat → List (Nat × ℚ) → Option (List (Nat × ℚ))
  | [], acc => some acc
  | p :: rest, acc =>
    match prRecAux ctx fuel p [] with
    | .ok v _ => buildRanked ctx fuel rest (alSet acc p v)
    | _ => none

/-- One insertion step of Python's stable descending sort
(`sorted(..., key=score, reverse=True)`): the new element goes after every
element whose score is at least its own, preserving the original order of
equal scores. -/
def insDesc (x : Nat × ℚ) : List (Nat × ℚ) → List (Nat × ℚ)
  | [] => [x]
  | y :: ys => if y.2 < x.2 then x :: y :: ys else y :: insDesc x ys

/-- Python's `sorted(items, key=lambda entry: entry[1], reverse=True)`: a
stable descending sort by score, modelled as left-to-right stable
insertion. -/
def pySortDesc (l : List (Nat × ℚ)) : List (Nat × ℚ) :=
  l.foldl (fun acc x => insDesc x acc) []

/-- `Indexer.search_by_keywords` (indexer.py lines 570-583): resolve the
keyword to a word id (registering it when unknown), pull the lexicon's page
ids, rank every page, sort descending by rank, and return the page ids
together with the (dictionary-mutated) state. -/
def searchByKeywords (fuel : Nat) (s : Indexer) (kw : String) :
    Option (List Nat × Indexer) :=
  match buildRanked s.rankCtx fuel
      (getPageIds s.reverse (getWordId s.word_dictionary kw).1) [] with
  | none => none
  | some ranked =>
    some ((pySortDesc ranked).map Prod.fst,
      { s with word_dictionary := (getWordId s.word_dictionary kw).2 })

/-- The PageRank value of a page in a given state, when the fuel-bounded
recursion produces one. -/
def ctxScore (ctx : RankCtx) (fuel pid : Nat) : Option ℚ :=
  match prRecAux ctx fuel pid [] with
  | .ok v _ => some v
  | _ => none

/-- `ctxScore` read off the indexer state. -/
def pageScore (s : Indexer) (fuel pid : Nat) : Option ℚ :=
  ctxScore s.rankCtx fuel pid

/-- The ordering the search results must satisfy: strictly larger score
first, ties by ascending page id. -/
def scoreOrder (a b : Nat × ℚ) : Prop :=
  b.2 < a.2 ∨ (a.2 = b.2 ∧ a.1 < b.1)

/-- A pairwise relation can be weakened pointwise using membership. -/
theorem pairwise_imp_of_mem {α : Type} {R S : α → α → Prop} :
    ∀ l : List α, (∀ a ∈ l, ∀ b ∈ l, R a b → S a b) → l.Pairwise R → l.Pairwise S := by
  intro l
  induction l with
  | nil => intro _ _; exact List.Pairwise.nil
  | cons x xs ih =>
    intro h hp
    rw [List.pairwise_cons] at hp ⊢
    constructor
    · intro b hb
      exact h x (List.mem_cons_self _ _) b (List.mem_cons_of_mem _ hb) (hp.1 b hb)
    · exact ih
        (fun a ha b hb hr => h a (List.mem_cons_of_mem _ ha) b (List.mem_cons_of_mem _ hb) hr)
        hp.2

/-- Updating a ranked accumulator keeps its keys strictly increasing, given
that the new key is at least every present key. -/
theorem alSet_pairwise_keys (acc : List (Nat × ℚ)) (k : Nat) (v : ℚ)
    (hpw : acc.Pairwise (fun a b => a.1 < b.1)) (hle : ∀ y ∈ acc, y.1 ≤ k) :
    (alSet acc k v).Pairwise (fun a b => a.1 < b.1) := by
  induction acc with
  | nil => simp [alSet]
  | cons a rest ih =>
    rw [List.pairwise_cons] at hpw
    unfold alSet
    by_cases hk : k = a.1
    · rw [if_pos hk]
      rw [List.pairwise_cons]
      exact ⟨fun b hb => hpw.1 b hb, hpw.2⟩
    · rw [if_neg hk]
      rw [List.pairwise_cons]
      constructor
      · intro b hb
        rcases mem_alSet _ _ _ _ hb with h1 | h1
        · rw [h1]
          exact lt_of_le_of_ne (hle a (List.mem_cons_self _ _)) (fun he => hk he.symm)
        · exact hpw.1 b h1
      · exact ih hpw.2 (fun y hy => hle y (List.mem_cons_of_mem _ hy))

/-- The ranked map built by the dict comprehension has strictly increasing
keys (since the lexicon's page list is sorted) and stores exactly the
fuel-bounded PageRank of each key. -/
theorem buildRanked_spec (ctx : RankCtx) (fuel : Nat) :
    ∀ (pages : List Nat) (acc ranked : List (Nat × ℚ)),
      pages.Sorted (· ≤ ·) →
      acc.Pairwise (fun a b => a.1 < b.1) →
      (∀ y ∈ acc, ∀ q ∈ pages, y.1 ≤ q) →
      (∀ y ∈ acc, ctxScore ctx fuel y.1 = some y.2) →
      buildRanked ctx fuel pages acc = some ranked →
      ranked.Pairwise (fun a b => a.1 < b.1) ∧
        (∀ y ∈ ranked, ctxScore ctx fuel y.1 = some y.2) := by
  intro pages
  induction pages with
  | nil =>
    intro acc ranked _ hpw _ hsc hb
    unfold buildRanked at hb
    injection hb with hb
    exact hb ▸ ⟨hpw, hsc⟩
  | cons p rest ih =>
    intro acc ranked hsorted hpw hcross hsc hb
    rw [List.sorted_cons] at hsorted
    unfold buildRanked at hb
    cases hscore : prRecAux ctx fuel p [] with
    | ok v tr =>
      simp only [hscore] at hb
      refine ih (alSet acc p v) ranked hsorted.2 ?_ ?_ ?_ hb
      · exact alSet_pairwise_keys acc p v hpw
          (fun y hy => hcross y hy p (List.mem_cons_self _ _))
      · intro y hy q hq
        rcases mem_alSet _ _ _ _ hy with h1 | h1
        · rw [h1]; exact hsorted.1 q hq
        · exact hcross y h1 q (List.mem_cons_of_mem _ hq)
      · intro y hy
        rcases mem_alSet _ _ _ _ hy with h1 | h1
        · rw [h1]
          unfold ctxScore
          rw [hscore]
        · exact hsc y h1
    | err => simp [hscore] at hb
    | noFuel => simp [hscore] at hb

/-- Elements of a stable insertion are the inserted one or old ones. -/
theorem mem_insDesc (x z : Nat × ℚ) : ∀ l, z ∈ insDesc x l → z = x ∨ z ∈ l := by
  intro l
  induction l with
  | nil =>
    intro h
    simp [insDesc] at h
    exact Or.inl h
  | cons y ys ih =>
    intro h
    unfold insDesc at h
    by_cases hxy : y.2 < x.2
    · rw [if_pos hxy] at h
      rcases List.mem_cons.mp h with h1 | h1
      · exact Or.inl h1
      · exact Or.inr h1
    · rw [if_neg hxy] at h
      rcases List.mem_cons.mp h with h1 | h1
      · exact Or.inr (by rw [h1]; exact List.mem_cons_self _ _)
      · rcases ih h1 with h2 | h2
        · exact Or.inl h2
        · exact Or.inr (List.mem_cons_of_mem _ h2)

/-- Stable descending insertion of an element whose page id exceeds all page
ids already placed preserves the search ordering. -/
theorem insDesc_pairwise (x : Nat × ℚ) :
    ∀ l, l.Pairwise scoreOrder → (∀ y ∈ l, y.1 < x.1) →
      (insDesc x l).Pairwise scoreOrder := by
  intro l
  induction l with
  | nil => intro _ _; simp [insDesc]
  | cons y ys ih =>
    intro hp hk
    rw [List.pairwise_cons] at hp
    unfold insDesc
    by_cases hxy : y.2 < x.2
    · rw [if_pos hxy]
      rw [List.pairwise_cons]
      constructor
      · intro b hb
        rcases List.mem_cons.mp hb with h1 | h1
        · rw [h1]; exact Or.inl hxy
        · rcases hp.1 b h1 with h2 | h2
          · exact Or.inl (lt_trans h2 hxy)
          · exact Or.inl (h2.1 ▸ hxy)
      · rw [List.pairwise_cons]
        exact hp
    · rw [if_neg hxy]
      rw [List.pairwise_cons]
      constructor
      · intro b hb
        rcases mem_insDesc x b ys hb with h1 | h1
        · rw [h1]
          rcases lt_or_eq_of_le (le_of_not_lt hxy) with h2 | h2
          · exact Or.inl h2
          · exact Or.inr ⟨h2.symm, hk y (List.mem_cons_self _ _)⟩
        · exact hp.1 b h1
      · exact ih hp.2 (fun z hz => hk z (List.mem_cons_of_mem _ hz))

/-- The stable sort of a list with strictly increasing page ids is ordered by
descending score with ascending-id tie-break. -/
theorem sortFold_pairwise :
    ∀ l acc : List (Nat × ℚ),
      acc.Pairwise scoreOrder →
      (∀ y ∈ acc, ∀ x ∈ l, y.1 < x.1) →
      l.Pairwise (fun a b => a.1 < b.1) →
      (l.foldl (fun a x => insDesc x a) acc).Pairwise scoreOrder := by
  intro l
  induction l with
  | nil => intro acc h _ _; exact h
  | cons x rest ih =>
    intro acc hacc hcross hl
    rw [List.pairwise_cons] at hl
    show (rest.foldl _ (insDesc x acc)).Pairwise scoreOrder
    refine ih (insDesc x acc) ?_ ?_ hl.2
    · exact insDesc_pairwise x acc hacc (fun y hy => hcross y hy x (List.mem_cons_self _ _))
    · intro y hy z hz
      rcases mem_insDesc x y acc hy with h1 | h1
      · rw [h1]; exact hl.1 z hz
      · exact hcross y h1 z (List.mem_cons_of_mem _ hz)

/-- The stable sort permutes the input: membership view. -/
theorem sortFold_subset :
    ∀ (l acc : List (Nat × ℚ)) (z : Nat × ℚ),
      z ∈ l.foldl (fun a x => insDesc x a) acc → z ∈ acc ∨ z ∈ l := by
  intro l
  induction l with
  | nil => intro acc z h; exact Or.inl h
  | cons x rest ih =>
    intro acc z h
    rcases ih (insDesc x acc) z h with h1 | h1
    · rcases mem_insDesc x z acc h1 with h2 | h2
      · exact Or.inr (h2 ▸ List.mem_cons_self _ _)
      · exact Or.inl h2
    · exact Or.inr (List.mem_cons_of_mem _ h1)

/-- Claim C9: whenever `search_by_keywords` produces a result list (the
fuel-bounded ranking succeeded for every candidate page) over a state whose
lexicon containers are sorted, the returned page ids are ordered by strictly
descending PageRank score, with equal-score ties broken by ascending page id.
The tie order follows from the stability of Python's `sorted` applied to the
ascending lexicon list. -/
theorem c9_search_order (fuel : Nat) (s : Indexer) (kw : String) (res : List Nat)
    (hlex : ∀ pr ∈ s.reverse.lexicon, pr.2.Sorted (· ≤ ·))
    (hres : (searchByKeywords fuel s kw).map Prod.fst = some res) :
    res.Pairwise (fun a b => ∃ x y, pageScore s fuel a = some x ∧ pageScore s fuel b = some y ∧
      (y < x ∨ (x = y ∧ a < b))) := by
  unfold searchByKeywords at hres
  cases hbr : buildRanked s.rankCtx fuel
      (getPageIds s.reverse (getWordId s.word_dictionary kw).1) [] with
  | none =>
    rw [hbr] at hres
    simp at hres
  | some ranked =>
    rw [hbr] at hres
    simp only [Option.map_some] at hres
    injection hres with hres
    have hpages : (getPageIds s.reverse (getWordId s.word_dictionary kw).1).Sorted (· ≤ ·) := by
      unfold getPageIds alGetD
      cases hl : alLookup s.reverse.lexicon (getWordId s.word_dictionary kw).1 with
      | none => simp
      | some v =>
        simp only [Option.getD_some]
        exact hlex _ (alLookup_mem _ _ _ hl)
    have hspec := buildRanked_spec s.rankCtx fuel _ [] ranked hpages (by simp) (by simp)
      (by simp) hbr
    have hsorted : (pySortDesc ranked).Pairwise scoreOrder :=
      sortFold_pairwise ranked [] (by simp) (by simp) hspec.1
    have hmem : ∀ z ∈ pySortDesc ranked, ctxScore s.rankCtx fuel z.1 = some z.2 := by
      intro z hz
      rcases sortFold_subset ranked [] z hz with h1 | h1
      · simp at h1
      · exact hspec.2 z h1
    rw [← hres]
    rw [List.pairwise_map]
    refine pairwise_imp_of_mem _ ?_ hsorted
    intro a ha b hb hord
    exact ⟨a.2, b.2, hmem a ha, hmem b hb, hord⟩

/-- A one-page state used to witness the search-ordering theorem: the word
`"w"` has id 5, page 1 contains it, and page 1 has no inbound references. -/
def c9State : Indexer :=
  ⟨⟨[("w", 5)], 6⟩, ⟨[], 0, []⟩, ⟨[(5, [1])], []⟩, [(.nat 1, 1)], [], [],
    [(.nat 1, "u1")], 4 / 5⟩

/-- Witness for `c9_search_order` at a concrete state and query. -/
theorem c9_search_order_witness :
    List.Pairwise (fun a b => ∃ x y, pageScore c9State 1 a = some x ∧
      pageScore c9State 1 b = some y ∧ (y < x ∨ (x = y ∧ a < b))) [1] :=
  c9_search_order 1 c9State "w" [1]
    (by intro pr hpr; simp [c9State] at hpr; rw [hpr]; simp)
    (by decide)

/-- Claim C10: searching for a keyword whose normal form is unknown returns
the empty result and, as a side effect, registers the normal form under the
fresh id `current_id`, bumping the counter — querying mutates the word
dictionary.  The hypothesis that every lexicon word id is below `current_id`
is the consistency invariant maintained by normal operation; it makes the
fresh id miss the lexicon. -/
theorem c10_unknown_keyword (fuel : Nat) (s : Indexer) (kw : String)
    (h1 : alLookup s.word_dictionary.entries (normalizeWord kw) = none)
    (h2 : ∀ pr ∈ s.reverse.lexicon, pr.1 < s.word_dictionary.current_id) :
    searchByKeywords fuel s kw =
      some ([], { s with word_dictionary :=
        ⟨s.word_dictionary.entries ++ [(normalizeWord kw, s.word_dictionary.current_id)],
          s.word_dictionary.current_id + 1⟩ }) := by
  have hg : getWordId s.word_dictionary kw =
      (s.word_dictionary.current_id,
        ⟨s.word_dictionary.entries ++ [(normalizeWord kw, s.word_dictionary.current_id)],
          s.word_dictionary.current_id + 1⟩) := by
    simp only [getWordId, h1]
  have hpages : getPageIds s.reverse s.word_dictionary.current_id = [] := by
    unfold getPageIds alGetD
    cases hl : alLookup s.reverse.lexicon s.word_dictionary.current_id with
    | none => simp
    | some v =>
      exact absurd (h2 _ (alLookup_mem _ _ _ hl)) (lt_irrefl _)
  unfold searchByKeywords
  rw [hg]
  simp only [hpages]
  rfl

/-- Witness for `c10_unknown_keyword` on the fresh indexer and the keyword
`"new"`. -/
theorem c10_unknown_keyword_witness :
    searchByKeywords 1 emptyIndexer "new" =
      some ([], { emptyIndexer with word_dictionary :=
        ⟨emptyIndexer.word_dictionary.entries ++
          [(normalizeWord "new", emptyIndexer.word_dictionary.current_id)],
          emptyIndexer.word_dictionary.current_id + 1⟩ }) :=
  c10_unknown_keyword 1 emptyIndexer "new" (by decide) (by decide)
